import Mathlib

/-!
A shallow embedding of the tabular merge/export core of the `table_data`
repository (`app/handlers/data_processor.py`, `app/handlers/export_handler.py`,
`app/merge_extract/merge.py`), together with theorems settling the claims
about it.

Modelling conventions:
* a polars `DataFrame` is a list of column names plus a list of rows, each row
  a list of cells; a cell is `Option String` (`none` is a null value — cell
  dtypes are irrelevant to the claims and are not modelled);
* `len(df)` is the height, i.e. the number of rows;
* fallible operations return `Except`; the Python code raises `ValueError`,
  modelled by the dedicated error types below;
* Python `set` iteration order is hash-seed dependent; it is modelled by an
  explicit enumeration parameter (`IsSetEnum` below) wherever the source
  converts a `set` to a `list` whose order matters.  Where the source builds a
  `list(setA - setB)` only to report WHICH columns differ, the difference is
  embedded as an order-preserving `filter` (the set's content is what the
  claims are about, and theorems relate it to `Finset` differences).
-/

/-- A cell of a table: `none` models a polars null value. -/
abbrev Cell := Option String

/-- Shallow embedding of a polars `DataFrame`: named columns plus rows. -/
structure DataFrame where
  columns : List String
  rows : List (List Cell)
deriving DecidableEq, Repr

/-- Rectangularity invariant of a real polars frame: every row has one cell
per column. -/
def DataFrame.WF (df : DataFrame) : Prop :=
  ∀ r ∈ df.rows, r.length = df.columns.length

instance (df : DataFrame) : Decidable df.WF := by
  unfold DataFrame.WF
  infer_instance

/-- Indexing `df[col]`: the cell sequence of a named column (empty if absent —
polars would raise, but every use below is guarded by membership). -/
def getColumn (df : DataFrame) (c : String) : List Cell :=
  if df.columns.contains c then
    df.rows.map (fun r => r.getD (df.columns.indexOf c) none)
  else []

/-- Row-level effect of `df.with_columns(pl.lit(v).alias(c))`: overwrite the
cell of an existing column `c` in place, otherwise append a new cell. -/
def tagRow (cols : List String) (c v : String) (r : List Cell) : List Cell :=
  if cols.contains c then r.set (cols.indexOf c) (some v) else r ++ [some v]

/-- Column-name effect of `df.with_columns(pl.lit(v).alias(c))`: an existing
column keeps its position, a new one is appended last. -/
def tagCols (cols : List String) (c : String) : List String :=
  if cols.contains c then cols else cols ++ [c]

/-- Embedding of `df.with_columns(pl.lit(v).alias(c))` from
`DataProcessor.merge_identical_dataframes`. -/
def withColumnLit (df : DataFrame) (c v : String) : DataFrame :=
  { columns := tagCols df.columns c,
    rows := df.rows.map (tagRow df.columns c v) }

/-- Embedding of `pl.concat(dfs)` (vertical): requires a non-empty list of frames whose
column-name sequences coincide, and stacks the rows in list order. -/
def concatDf : List DataFrame → Except String DataFrame
  | [] => .error ("cannot concat empty list")
  | d :: ds =>
    if ds.all (fun x => x.columns == d.columns) then
      .ok { columns := d.columns, rows := (d :: ds).flatMap (fun x => x.rows) }
    else .error ("schema mismatch in concat")

/-- The `ValueError`s raised by `DataProcessor.merge_identical_dataframes`.
`schemaMismatch i missing extra` records the offending table index `i`
(position in the input list), the columns of the first table missing from
table `i`, and the columns of table `i` not present in the first table. -/
inductive MergeError where
  | emptyInput : MergeError
  | arityMismatch (nTables nLabels : Nat) : MergeError
  | schemaMismatch (index : Nat) (missing extra : List String) : MergeError
  | internalError (msg : String) : MergeError
deriving DecidableEq, Repr

/-- The validation loop `for i, df in enumerate(dfs[1:], 1): if df.columns !=
first_columns: ...`: first index (counting from `i`) whose columns differ from
`first`, together with that frame. -/
def findSchemaMismatch (first : List String) : List DataFrame → Nat → Option (Nat × DataFrame)
  | [], _ => none
  | df :: ds, i =>
    if df.columns == first then findSchemaMismatch first ds (i + 1)
    else some (i, df)

/-- Embedding of `DataProcessor.merge_identical_dataframes(dfs, source_names,
source_column_name)`: validates non-emptiness, arity and schema identity, tags
every frame with its provenance label and concatenates them. -/
def merge_identical_dataframes (dfs : List DataFrame) (source_names : List String)
    (source_column_name : String) : Except MergeError DataFrame :=
  match dfs with
  | [] => .error .emptyInput
  | d :: rest =>
    if (d :: rest).length ≠ source_names.length then
      .error (.arityMismatch (d :: rest).length source_names.length)
    else
      match findSchemaMismatch d.columns rest 1 with
      | some (i, df) =>
        .error (.schemaMismatch i
          (d.columns.filter (fun c => !(df.columns.contains c)))
          (df.columns.filter (fun c => !(d.columns.contains c))))
      | none =>
        let tagged := ((d :: rest).zip source_names).map
          (fun p => withColumnLit p.1 source_column_name p.2)
        match concatDf tagged with
        | .ok m => .ok m
        | .error e => .error (.internalError e)

/-- The default provenance column name of `merge_identical_dataframes`. -/
def sourceColumnDefault : String := "来源"

/-- Count, in the merged frame, of the rows carrying provenance value `v` —
what `merged_df.group_by(source_column_name).len()` reports for `v`. -/
def reportedCount (df : DataFrame) (c : String) (v : Cell) : Nat :=
  (getColumn df c).count v

/-- The per-source statistic table built in `MergeApp._process_and_merge_files`
(`merged_data.group_by("来源").len()`): one entry per distinct provenance
value with its group size.  The descending sort by count is presentational and
not modelled; the claims are about the entries. -/
def sourceBreakdown (df : DataFrame) (c : String) : List (Cell × Nat) :=
  (getColumn df c).dedup.map (fun v => (v, (getColumn df c).count v))

/-- Python `str.strip()` on a character list: drop leading and trailing
whitespace. -/
def stripChars (cs : List Char) : List Char :=
  ((cs.dropWhile Char.isWhitespace).reverse.dropWhile Char.isWhitespace).reverse

/-- Column-name normalization of `DataProcessor.standardize_columns`:
`col.strip().lower().replace(" ", "_")`, implemented on the character list
(ASCII lowering; since the replaced pattern is the single character `" "`,
`replace` is a character map). -/
def normalizeName (s : String) : String :=
  String.mk ((stripChars s.data).map (fun ch =>
    if ch.toLower = (' ') then ('_') else ch.toLower))

/-- Embedding of `DataProcessor.standardize_columns`: rename every column to its normalized
name.  polars `rename` raises a duplicate-column error when two names collide
after normalization; that failure is the `Except.error` case. -/
def standardize_columns (df : DataFrame) : Except String DataFrame :=
  let newCols := df.columns.map normalizeName
  if newCols.Nodup then .ok { columns := newCols, rows := df.rows }
  else .error ("duplicate column names after standardization")

/-- Embedding of `df.select(cols)`: fails when a requested column is absent; selecting the
empty list yields polars' empty frame of shape `(0, 0)`. -/
def selectColumns (df : DataFrame) (cols : List String) : Except String DataFrame :=
  if cols.all (fun c => df.columns.contains c) then
    .ok { columns := cols,
          rows := if cols.isEmpty then []
                  else df.rows.map (fun r => cols.map (fun c => r.getD (df.columns.indexOf c) none)) }
  else .error ("column not found")

/-- An admissible model of Python `list(s)` on a `set` of strings: any
duplicate-free enumeration of the set.  CPython's actual order is a function
of the per-process hash seed, so the code's guarantees must hold for every
admissible enumeration. -/
def IsSetEnum (enum : Finset String → List String) : Prop :=
  ∀ s : Finset String, (enum s).toFinset = s ∧ (enum s).Nodup

/-- Embedding of `DataProcessor.get_common_columns(dfs)`: intersect the (raw) column-name
sets of all frames, then return `list(common_cols)` — `enum` stands for the
set's iteration order. -/
def get_common_columns (enum : Finset String → List String)
    (dfs : List DataFrame) : List String :=
  match dfs with
  | [] => []
  | d :: rest =>
    enum (rest.foldl (fun acc df => acc ∩ df.columns.toFinset) d.columns.toFinset)

/-- Embedding of `DataProcessor.merge_dataframes(dfs)` (intersection mode): returns the
lone frame unchanged for a singleton input, otherwise keeps the common
columns of every standardized frame and concatenates. -/
def merge_dataframes (enum : Finset String → List String)
    (dfs : List DataFrame) : Except String DataFrame :=
  match dfs with
  | [] => .error ("No dataframes to merge")
  | d :: rest =>
    if rest.isEmpty then .ok d
    else do
      let common := get_common_columns enum (d :: rest)
      let std ← (d :: rest).mapM (fun df => do
        let s ← standardize_columns df
        selectColumns s common)
      concatDf std

/-- Deduplication that keeps the FIRST occurrence of every name, skipping any
name already seen (structural helper for the spec's first-seen order). -/
def firstOccurAux (seen : List String) : List String → List String
  | [] => []
  | x :: xs =>
    if x ∈ seen then firstOccurAux seen xs
    else x :: firstOccurAux (x :: seen) xs

/-- Deduplication in first-occurrence order: every name appears once, at the
position of its first occurrence in the input. -/
def firstOccurrenceDedup (l : List String) : List String :=
  firstOccurAux [] l

/-- Modelled from the spec: the column order the spec prescribes for
intersection mode — the first-occurrence order of the normalized common
column names among all tables.  Defined from the spec's words, to be compared
with `get_common_columns` (the code). -/
def specIntersectionOrder (dfs : List DataFrame) : List String :=
  match dfs with
  | [] => []
  | d :: rest =>
    let common := rest.foldl
      (fun acc df => acc ∩ (df.columns.map normalizeName).toFinset)
      (d.columns.map normalizeName).toFinset
    (firstOccurrenceDedup
        ((d :: rest).flatMap (fun df => df.columns.map normalizeName))).filter
      (fun c => decide (c ∈ common))

/-- Embedding of `ExportHandler.export_excel(df, columns)`: with a non-empty selection it
validates the selected names against the schema and fails — producing no
bytes — when any is missing, reporting exactly the missing ones; otherwise it
serializes the projection (`None` or `[]` exports the whole frame, Python
truthiness).  The external spreadsheet writer is out of scope, so the
successful result is the projected frame standing for the written bytes. -/
def export_excel (df : DataFrame) (columns : Option (List String)) :
    Except (List String) DataFrame :=
  match columns with
  | some cols =>
    if cols.isEmpty then .ok df
    else
      let missing := cols.filter (fun c => !(df.columns.contains c))
      if missing.isEmpty then
        .ok { columns := cols,
              rows := df.rows.map (fun r => cols.map (fun c => r.getD (df.columns.indexOf c) none)) }
      else .error missing
  | none => .ok df

/-- Per-column summary of `DataProcessor.get_column_statistics`.  The
dtype string and the numeric-only min/max/mean/median fields are outside the
claims and not modelled. -/
structure ColumnStats where
  null_count : Nat
  unique_count : Nat
  null_percentage : ℚ
deriving DecidableEq, Repr

/-- Embedding of `DataProcessor.get_column_statistics(df)`: per column, the null count, the
distinct-value count, and `(null_count / len(df)) * 100 if len(df) > 0 else
0`. -/
def get_column_statistics (df : DataFrame) : List (String × ColumnStats) :=
  df.columns.map (fun c =>
    let vals := getColumn df c
    (c, { null_count := vals.count none,
          unique_count := vals.dedup.length,
          null_percentage :=
            if 0 < df.rows.length then
              ((vals.count none : ℚ) / (df.rows.length : ℚ)) * 100
            else 0 }))

/-- Embedding of `os.path.splitext(name)[0]` for a plain file name (no directory
separators): drop the extension, i.e. cut at the last dot that is preceded by
some non-dot character; a name whose dots are all leading has no extension. -/
def splitextStem (s : String) : String :=
  let cs := s.data
  let isSplitDot : Nat → Bool := fun i =>
    (cs.getD i (' ') == ('.')) && (List.range i).any (fun j => cs.getD j (' ') != ('.'))
  match ((List.range cs.length).filter isSplitDot).getLast? with
  | some i => String.mk (cs.take i)
  | none => s

/-- One successfully read upload: the file name and the frames of its sheets
(`FileHandler.read_file` yields one frame per sheet, a single frame for
CSV). -/
structure UploadedFileData where
  name : String
  sheets : List DataFrame
deriving DecidableEq, Repr

/-- The provenance labels one file contributes in
`MergeApp._process_and_merge_files`: the file-name stem, suffixed with
`_工作表{j+1}` when the file yields more than one sheet. -/
def sheetLabels (f : UploadedFileData) : List String :=
  let stem := splitextStem f.name
  if f.sheets.length > 1 then
    (List.range f.sheets.length).map (fun j => stem ++ ("_工作表") ++ Nat.repr (j + 1))
  else
    f.sheets.map (fun _ => stem)

/-- The frame list and provenance-label list `MergeApp._process_and_merge_files`
accumulates over the successfully read uploads before calling
`merge_identical_dataframes`. -/
def gatherSources (files : List UploadedFileData) : List DataFrame × List String :=
  (files.flatMap (fun f => f.sheets), files.flatMap sheetLabels)

/-- Bool test for a schema-mismatch failure of the strict merge. -/
def isSchemaMismatchError : Except MergeError DataFrame → Bool
  | .error (.schemaMismatch _ _ _) => true
  | _ => false

/-- Decimal value of a digit character (used to invert `Nat.repr`). -/
def digitVal (ch : Char) : Nat := ch.toNat - 48

/-- Left fold reading a decimal digit string back into a number, starting from
accumulator `a`. -/
def decodeNat (a : Nat) (cs : List Char) : Nat :=
  cs.foldl (fun x ch => 10 * x + digitVal ch) a

/-- A concrete admissible set enumeration, modelling one possible iteration
order of a hash-seeded Python set: on the set `{a, b}` it yields `a` before
`b`, elsewhere it sorts. -/
def enumAB (s : Finset String) : List String :=
  if s = ({"a", "b"} : Finset String) then ["a", "b"] else s.sort (· ≤ ·)

/-- A second concrete admissible set enumeration, modelling another possible
iteration order of the same set: on `{a, b}` it yields `b` before `a`. -/
def enumBA (s : Finset String) : List String :=
  if s = ({"a", "b"} : Finset String) then ["b", "a"] else s.sort (· ≤ ·)

/-- Example frame `A` of the spec: columns `id`, `name`, three rows. -/
def exA : DataFrame :=
  ⟨["id", "name"],
   [[some "1", some "Alice"], [some "2", some "Bob"], [some "3", some "Carol"]]⟩

/-- Example frame `B` of the spec: columns `id`, `name`, two rows. -/
def exB : DataFrame :=
  ⟨["id", "name"], [[some "4", some "Dan"], [some "5", some "Eve"]]⟩

/-- A one-row frame with the single column `x`. -/
def exP : DataFrame := ⟨["x"], [[some "1"]]⟩

/-- A two-row frame with the single column `x`. -/
def exQ : DataFrame := ⟨["x"], [[some "2"], [some "3"]]⟩

/-- A frame whose column order is `b`, `a`. -/
def exBA : DataFrame := ⟨["b", "a"], [[some "1", some "2"]]⟩

/-- A frame with the single column `a`. -/
def exOnlyA : DataFrame := ⟨["a"], [[some "1"]]⟩

/-- A frame with the single column `b`. -/
def exOnlyB : DataFrame := ⟨["b"], [[some "2"]]⟩

/-- A CSV upload named `a.csv` with one table. -/
def exFileCsv : UploadedFileData := ⟨"a.csv", [exP]⟩

/-- A spreadsheet upload named `a.xlsx` with one sheet. -/
def exFileXlsx : UploadedFileData := ⟨"a.xlsx", [exQ]⟩

/-- C7: merge rejects structurally invalid requests before producing any
result — an empty table list fails with the empty-merge error, an arity
mismatch between tables and labels fails with the arity-mismatch error, and
in every error case no merged table is produced (all-or-nothing). -/
theorem merge_structural_validation (dfs : List DataFrame) (names : List String)
    (c : String) :
    (dfs = [] → merge_identical_dataframes dfs names c = .error .emptyInput) ∧
    (dfs ≠ [] → dfs.length ≠ names.length →
      merge_identical_dataframes dfs names c =
        .error (.arityMismatch dfs.length names.length)) ∧
    (∀ e, merge_identical_dataframes dfs names c = .error e →
      ∀ m, merge_identical_dataframes dfs names c ≠ .ok m) := by
  refine ⟨?_, ?_, ?_⟩
  · rintro rfl
    rfl
  · intro hne hlen
    match dfs with
    | [] => exact absurd rfl hne
    | d :: rest =>
      simp only [merge_identical_dataframes, if_pos hlen]
  · intro e he m hm
    rw [he] at hm
    exact Except.noConfusion hm

theorem merge_structural_validation_witness :
    merge_identical_dataframes [] [] sourceColumnDefault = .error .emptyInput ∧
    merge_identical_dataframes [⟨["a"], []⟩] [] sourceColumnDefault =
      .error (.arityMismatch 1 0) :=
  ⟨(merge_structural_validation [] [] sourceColumnDefault).1 rfl,
   (merge_structural_validation [⟨["a"], []⟩] [] sourceColumnDefault).2.1
      (by decide) (by decide)⟩

/-- C8: exporting with a non-empty selection containing names absent from the
schema fails with an error listing exactly the offending names, and no bytes
are produced (the result is an error, never a written frame). -/
theorem export_unknown_columns (df : DataFrame) (cols : List String)
    (h1 : cols ≠ []) (h2 : ∃ c ∈ cols, c ∉ df.columns) :
    ∃ missing, export_excel df (some cols) = .error missing ∧ missing ≠ [] ∧
      (∀ x, x ∈ missing ↔ x ∈ cols ∧ x ∉ df.columns) ∧
      ∀ m, export_excel df (some cols) ≠ .ok m := by
  refine ⟨cols.filter (fun c => !(df.columns.contains c)), ?_, ?_, ?_, ?_⟩
  · simp only [export_excel]
    rw [if_neg (by simpa using h1), if_neg ?_]
    intro hempty
    obtain ⟨c, hc, hcn⟩ := h2
    rw [List.isEmpty_iff] at hempty
    have : c ∈ cols.filter (fun c => !(df.columns.contains c)) := by
      rw [List.mem_filter]
      exact ⟨hc, by simpa using hcn⟩
    rw [hempty] at this
    exact absurd this (List.not_mem_nil c)
  · obtain ⟨c, hc, hcn⟩ := h2
    intro hnil
    have : c ∈ cols.filter (fun c => !(df.columns.contains c)) := by
      rw [List.mem_filter]
      exact ⟨hc, by simpa using hcn⟩
    rw [hnil] at this
    exact absurd this (List.not_mem_nil c)
  · intro x
    rw [List.mem_filter]
    simp
  · intro m hm
    simp only [export_excel] at hm
    rw [if_neg (by simpa using h1)] at hm
    by_cases hme : (cols.filter (fun c => !(df.columns.contains c))).isEmpty
    · obtain ⟨c, hc, hcn⟩ := h2
      rw [List.isEmpty_iff] at hme
      have : c ∈ cols.filter (fun c => !(df.columns.contains c)) := by
        rw [List.mem_filter]
        exact ⟨hc, by simpa using hcn⟩
      rw [hme] at this
      exact absurd this (List.not_mem_nil c)
    · rw [if_neg hme] at hm
      exact Except.noConfusion hm

theorem export_unknown_columns_witness :
    (["id", "ghost"] : List String) ≠ [] ∧
    (∃ c ∈ (["id", "ghost"] : List String),
      c ∉ (DataFrame.mk ["id", "name"] []).columns) ∧
    ∃ missing,
      export_excel (DataFrame.mk ["id", "name"] []) (some ["id", "ghost"]) =
        .error missing ∧ missing ≠ [] ∧
      (∀ x, x ∈ missing ↔ x ∈ (["id", "ghost"] : List String) ∧
        x ∉ (DataFrame.mk ["id", "name"] []).columns) ∧
      ∀ m, export_excel (DataFrame.mk ["id", "name"] []) (some ["id", "ghost"]) ≠ .ok m :=
  ⟨by decide, by decide,
   export_unknown_columns (DataFrame.mk ["id", "name"] []) ["id", "ghost"]
     (by decide) (by decide)⟩

/-- C9: for every column of the quality summary, the null percentage equals
`nullCount / rowCount * 100` when the row count is positive, and is exactly
`0` when the row count is `0` — no division by zero is attempted on an empty
table. -/
theorem quality_null_percentage (df : DataFrame) (c : String) (s : ColumnStats)
    (h : (c, s) ∈ get_column_statistics df) :
    (0 < df.rows.length →
      s.null_percentage = (s.null_count : ℚ) / (df.rows.length : ℚ) * 100) ∧
    (df.rows.length = 0 → s.null_percentage = 0) := by
  simp only [get_column_statistics, List.mem_map] at h
  obtain ⟨c0, -, heq⟩ := h
  obtain ⟨rfl, rfl⟩ : c0 = c ∧
      ({ null_count := (getColumn df c0).count none,
         unique_count := (getColumn df c0).dedup.length,
         null_percentage :=
           if 0 < df.rows.length then
             (((getColumn df c0).count none : ℚ) / (df.rows.length : ℚ)) * 100
           else 0 } : ColumnStats) = s :=
    ⟨congrArg Prod.fst heq, congrArg Prod.snd heq⟩
  constructor
  · intro hpos
    simp only [if_pos hpos]
  · intro hzero
    simp [hzero]

theorem quality_null_percentage_witness :
    ((("a" : String), (⟨1, 2, (1 : ℚ) / 2 * 100⟩ : ColumnStats)) ∈
      get_column_statistics (DataFrame.mk ["a"] [[none], [some "x"]])) ∧
    ((0 < (DataFrame.mk ["a"] [[none], [some "x"]]).rows.length →
      ((⟨1, 2, (1 : ℚ) / 2 * 100⟩ : ColumnStats)).null_percentage =
        (((⟨1, 2, (1 : ℚ) / 2 * 100⟩ : ColumnStats)).null_count : ℚ) /
          ((DataFrame.mk ["a"] [[none], [some "x"]]).rows.length : ℚ) * 100) ∧
    ((DataFrame.mk ["a"] [[none], [some "x"]]).rows.length = 0 →
      ((⟨1, 2, (1 : ℚ) / 2 * 100⟩ : ColumnStats)).null_percentage = 0)) := by
  have hmem : ((("a" : String), (⟨1, 2, (1 : ℚ) / 2 * 100⟩ : ColumnStats)) ∈
      get_column_statistics (DataFrame.mk ["a"] [[none], [some "x"]])) := by
    have h0 : get_column_statistics (DataFrame.mk ["a"] [[none], [some "x"]]) =
        [("a", ⟨1, 2, (1 : ℚ) / 2 * 100⟩)] := by
      simp [get_column_statistics, getColumn]
    rw [h0]
    exact List.mem_singleton_self _
  exact ⟨hmem,
    quality_null_percentage (DataFrame.mk ["a"] [[none], [some "x"]]) ("a")
      ⟨1, 2, (1 : ℚ) / 2 * 100⟩ hmem⟩

theorem findSchemaMismatch_eq_none {first : List String} :
    ∀ {l : List DataFrame} {i : Nat},
      findSchemaMismatch first l i = none ↔ ∀ df ∈ l, df.columns = first := by
  intro l
  induction l with
  | nil => intro i; simp [findSchemaMismatch]
  | cons d0 ds ih =>
    intro i
    by_cases h : d0.columns = first
    · simp [findSchemaMismatch, beq_iff_eq, h, ih]
    · simp [findSchemaMismatch, beq_iff_eq, h]

theorem findSchemaMismatch_eq_some {first : List String} :
    ∀ {l : List DataFrame} {i j : Nat} {df : DataFrame},
      findSchemaMismatch first l i = some (j, df) →
      i ≤ j ∧ ∃ hk : j - i < l.length, df = l.get ⟨j - i, hk⟩ ∧ df.columns ≠ first := by
  intro l
  induction l with
  | nil => intro i j df h; simp [findSchemaMismatch] at h
  | cons d0 ds ih =>
    intro i j df h
    rw [findSchemaMismatch] at h
    by_cases hc : d0.columns = first
    · rw [if_pos (by simpa [beq_iff_eq] using hc)] at h
      obtain ⟨hij, hk, hdf, hne⟩ := ih h
      refine ⟨by omega, ?_⟩
      have hji : j - i = (j - (i + 1)) + 1 := by omega
      rw [hji]
      refine ⟨by simpa using Nat.succ_lt_succ hk, by simpa using hdf, hne⟩
    · rw [if_neg (by simpa [beq_iff_eq] using hc)] at h
      injection h with h1
      injection h1 with hj hdf
      subst hj; subst hdf
      refine ⟨Nat.le_refl _, ?_⟩
      rw [Nat.sub_self]
      exact ⟨Nat.zero_lt_succ _, rfl, hc⟩

theorem mergeIdentical_ok (d : DataFrame) (rest : List DataFrame) (names : List String)
    (c : String) (hlen : (d :: rest).length = names.length)
    (hcols : ∀ df ∈ (d :: rest), df.columns = d.columns) :
    merge_identical_dataframes (d :: rest) names c =
      .ok { columns := tagCols d.columns c,
            rows := ((d :: rest).zip names).flatMap
              (fun p => p.1.rows.map (tagRow d.columns c p.2)) } := by
  match names with
  | [] => simp at hlen
  | n0 :: ns =>
    simp only [merge_identical_dataframes]
    rw [if_neg (not_ne_iff.mpr hlen)]
    have hnone : findSchemaMismatch d.columns rest 1 = none :=
      findSchemaMismatch_eq_none.mpr (fun df hdf => hcols df (List.mem_cons_of_mem _ hdf))
    rw [hnone]
    rw [List.zip_cons_cons, List.map_cons]
    have hcolsEq : ∀ p : DataFrame × String, p ∈ (d :: rest).zip (n0 :: ns) →
        (withColumnLit p.1 c p.2).columns = tagCols d.columns c := by
      intro p hp
      have hm : p.1 ∈ d :: rest := (List.of_mem_zip hp).1
      simp [withColumnLit, hcols p.1 hm]
    have hall : ((rest.zip ns).map (fun p => withColumnLit p.1 c p.2)).all
        (fun x => x.columns == (withColumnLit d c n0).columns) = true := by
      rw [List.all_eq_true]
      intro x hx
      rw [List.mem_map] at hx
      obtain ⟨p, hp, rfl⟩ := hx
      rw [beq_iff_eq, hcolsEq p (by rw [List.zip_cons_cons]; exact List.mem_cons_of_mem _ hp),
        hcolsEq (d, n0) (by rw [List.zip_cons_cons]; exact List.mem_cons_self _ _)]
    have h2 : (withColumnLit d c n0 :: (rest.zip ns).map (fun p => withColumnLit p.1 c p.2)).flatMap
        (fun x => x.rows) =
        ((d :: rest).zip (n0 :: ns)).flatMap (fun p => p.1.rows.map (tagRow d.columns c p.2)) := by
      rw [← List.map_cons (fun p => withColumnLit p.1 c p.2) (d, n0) (rest.zip ns),
        ← List.zip_cons_cons, List.flatMap_map]
      refine List.flatMap_congr (fun p hp => ?_)
      show (withColumnLit p.1 c p.2).rows = _
      have hm : p.1 ∈ d :: rest := (List.of_mem_zip hp).1
      simp [withColumnLit, hcols p.1 hm]
    have hconcat : concatDf (withColumnLit d c n0 ::
        (rest.zip ns).map (fun p => withColumnLit p.1 c p.2)) =
        .ok { columns := tagCols d.columns c,
              rows := ((d :: rest).zip (n0 :: ns)).flatMap
                (fun p => p.1.rows.map (tagRow d.columns c p.2)) } := by
      simp only [concatDf]
      rw [if_pos hall]
      refine congrArg Except.ok ?_
      rw [DataFrame.mk.injEq]
      exact ⟨hcolsEq (d, n0) (by rw [List.zip_cons_cons]; exact List.mem_cons_self _ _), h2⟩
    rw [hconcat]
    rfl

theorem tagCols_toFinset (cols : List String) (c : String) :
    (tagCols cols c).toFinset = cols.toFinset ∪ {c} := by
  unfold tagCols
  by_cases h : c ∈ cols
  · rw [if_pos (by simpa using h)]
    exact (Finset.union_eq_left.mpr (by simpa using h)).symm
  · rw [if_neg (by simpa using h), List.toFinset_append]
    simp

theorem indexOf_append_self (cols : List String) (c : String) (hc : c ∉ cols) :
    (cols ++ [c]).indexOf c = cols.length := by
  induction cols with
  | nil => simp
  | cons a as ih =>
    have hne : a ≠ c := fun h => hc (h ▸ List.mem_cons_self a as)
    rw [List.cons_append, List.indexOf_cons_ne _ hne,
      ih (fun h => hc (List.mem_cons_of_mem _ h))]
    rfl

theorem tagRow_getD (cols : List String) (c v : String) (r : List Cell)
    (hr : r.length = cols.length) :
    (tagRow cols c v r).getD ((tagCols cols c).indexOf c) none = some v := by
  unfold tagRow tagCols
  by_cases hc : c ∈ cols
  · rw [if_pos (by simpa using hc), if_pos (by simpa using hc),
      List.getD_eq_getElem?_getD]
    have hidx : cols.indexOf c < r.length := by
      rw [hr]
      exact List.indexOf_lt_length.mpr hc
    simp [List.getElem?_set, hidx]
  · rw [if_neg (by simpa using hc), if_neg (by simpa using hc),
      indexOf_append_self cols c hc, List.getD_eq_getElem?_getD,
      List.getElem?_append_right (Nat.le_of_eq hr), hr, Nat.sub_self]
    rfl

theorem getColumn_tagged (d : DataFrame) (rest : List DataFrame) (names : List String)
    (c : String) (hcols : ∀ df ∈ (d :: rest), df.columns = d.columns)
    (hwf : ∀ df ∈ (d :: rest), df.WF) :
    getColumn
      ⟨tagCols d.columns c,
       ((d :: rest).zip names).flatMap (fun p => p.1.rows.map (tagRow d.columns c p.2))⟩ c
      = ((d :: rest).zip names).flatMap
          (fun p => List.replicate p.1.rows.length (some p.2)) := by
  have hcont : (tagCols d.columns c).contains c = true := by
    unfold tagCols
    by_cases hc : c ∈ d.columns
    · rw [if_pos (by simpa using hc)]
      simpa using hc
    · rw [if_neg (by simpa using hc)]
      simp
  unfold getColumn
  rw [if_pos hcont, List.map_flatMap]
  refine List.flatMap_congr (fun p hp => ?_)
  rw [List.map_map]
  have hmem : p.1 ∈ d :: rest := (List.of_mem_zip hp).1
  have hcongr : p.1.rows.map
      ((fun r => r.getD ((tagCols d.columns c).indexOf c) none) ∘ (tagRow d.columns c p.2)) =
      p.1.rows.map (fun _ => some p.2) := by
    refine List.map_congr_left (fun r hr => ?_)
    refine tagRow_getD d.columns c p.2 r ?_
    rw [← hcols p.1 hmem]
    exact hwf p.1 hmem r hr
  rw [hcongr, List.map_const']

/-- C1: for every non-empty list of tables with identical column-name
sequences and labels in equal number, strict-mode merge succeeds with a table
whose row count is the sum of the input row counts, whose column set is the
shared schema together with the provenance column, and whose rows are exactly
the tagged source rows in source order, each source keeping its internal row
order (empty sources contribute zero rows and cause no error). -/
theorem strict_merge_shape_and_order (dfs : List DataFrame) (names : List String)
    (c : String) (h1 : dfs ≠ []) (h2 : dfs.length = names.length)
    (h3 : ∀ df ∈ dfs, df.columns = (dfs.head h1).columns) :
    ∃ m, merge_identical_dataframes dfs names c = .ok m ∧
      m.rows.length = (dfs.map (fun df => df.rows.length)).sum ∧
      m.columns.toFinset = (dfs.head h1).columns.toFinset ∪ {c} ∧
      m.rows = (dfs.zip names).flatMap
        (fun p => p.1.rows.map (tagRow (dfs.head h1).columns c p.2)) := by
  match dfs with
  | [] => exact absurd rfl h1
  | d :: rest =>
    refine ⟨_, mergeIdentical_ok d rest names c h2 (by simpa using h3), ?_, ?_, rfl⟩
    · show (((d :: rest).zip names).flatMap
        fun p => List.map (tagRow d.columns c p.2) p.1.rows).length = _
      rw [List.length_flatMap]
      simp only [Function.comp_def, List.length_map]
      have hcomp : (((d :: rest).zip names).map (fun p => p.1.rows.length)) =
          ((((d :: rest).zip names).map Prod.fst).map (fun df => df.rows.length)) := by
        rw [List.map_map]
        rfl
      rw [hcomp, List.map_fst_zip _ _ (Nat.le_of_eq h2)]
    · exact tagCols_toFinset d.columns c

theorem strict_merge_shape_and_order_witness :
    ∃ m, merge_identical_dataframes [exA, exB] ["fileA", "fileB"] sourceColumnDefault = .ok m ∧
      m.rows.length = ([exA, exB].map (fun df => df.rows.length)).sum ∧
      m.columns.toFinset =
        ([exA, exB].head (by decide)).columns.toFinset ∪ {sourceColumnDefault} ∧
      m.rows = ([exA, exB].zip ["fileA", "fileB"]).flatMap
        (fun p => p.1.rows.map
          (tagRow ([exA, exB].head (by decide)).columns sourceColumnDefault p.2)) :=
  strict_merge_shape_and_order [exA, exB] ["fileA", "fileB"] sourceColumnDefault
    (by decide) (by decide) (by decide)

/-- C10: when the inputs already contain a column named like the provenance
column, strict-mode merge overwrites that column in place instead of appending
a new one: the merged column list is exactly the input schema (the column
count does not grow by one), and the provenance column of the merged table
holds, block by block in source order, each source's label repeated for its
rows — the pre-existing values are replaced by the labels. -/
theorem merge_overwrites_existing_source_column (dfs : List DataFrame)
    (names : List String) (c : String) (h1 : dfs ≠ [])
    (h2 : dfs.length = names.length)
    (h3 : ∀ df ∈ dfs, df.columns = (dfs.head h1).columns)
    (h4 : ∀ df ∈ dfs, df.WF)
    (h5 : c ∈ (dfs.head h1).columns) :
    ∃ m, merge_identical_dataframes dfs names c = .ok m ∧
      m.columns = (dfs.head h1).columns ∧
      m.columns.length = (dfs.head h1).columns.length ∧
      getColumn m c = (dfs.zip names).flatMap
        (fun p => List.replicate p.1.rows.length (some p.2)) := by
  match dfs with
  | [] => exact absurd rfl h1
  | d :: rest =>
    refine ⟨_, mergeIdentical_ok d rest names c h2 (by simpa using h3), ?_, ?_, ?_⟩
    · show tagCols d.columns c = d.columns
      unfold tagCols
      rw [if_pos (by simpa using h5)]
    · show (tagCols d.columns c).length = d.columns.length
      unfold tagCols
      rw [if_pos (by simpa using h5)]
    · exact getColumn_tagged d rest names c (by simpa using h3) h4

theorem merge_overwrites_existing_source_column_witness :
    ∃ m, merge_identical_dataframes [⟨["id", "来源"], [[some "1", some "old"]]⟩]
        ["f"] sourceColumnDefault = .ok m ∧
      m.columns = ([(⟨["id", "来源"], [[some "1", some "old"]]⟩ : DataFrame)].head
        (by decide)).columns ∧
      m.columns.length = ([(⟨["id", "来源"], [[some "1", some "old"]]⟩ : DataFrame)].head
        (by decide)).columns.length ∧
      getColumn m sourceColumnDefault =
        ([(⟨["id", "来源"], [[some "1", some "old"]]⟩ : DataFrame)].zip ["f"]).flatMap
          (fun p => List.replicate p.1.rows.length (some p.2)) :=
  merge_overwrites_existing_source_column
    [⟨["id", "来源"], [[some "1", some "old"]]⟩] ["f"] sourceColumnDefault
    (by decide) (by decide) (by decide) (by decide) (by decide)

theorem filter_not_contains_toFinset (l1 l2 : List String) :
    (l1.filter (fun c => !(l2.contains c))).toFinset = l1.toFinset \ l2.toFinset := by
  ext x
  simp [List.mem_filter]

/-- C4: strict-mode merge fails with the schema-mismatch error if and only if
at least two input tables have differing column-name sequences (exact string
and order match), and the error payload carries, for the offending table, the
set of columns of the first table missing from it and the set of its columns
not present in the first table. -/
theorem schema_mismatch_iff (dfs : List DataFrame) (names : List String) (c : String)
    (h1 : dfs ≠ []) (h2 : dfs.length = names.length) :
    (isSchemaMismatchError (merge_identical_dataframes dfs names c) = true ↔
      ∃ a ∈ dfs, ∃ b ∈ dfs, a.columns ≠ b.columns) ∧
    (∀ i missing extra,
      merge_identical_dataframes dfs names c = .error (.schemaMismatch i missing extra) →
      ∃ hi : i < dfs.length,
        missing.toFinset =
          (dfs.head h1).columns.toFinset \ (dfs.get ⟨i, hi⟩).columns.toFinset ∧
        extra.toFinset =
          (dfs.get ⟨i, hi⟩).columns.toFinset \ (dfs.head h1).columns.toFinset) := by
  match dfs with
  | [] => exact absurd rfl h1
  | d :: rest =>
    have hiff : (∃ a ∈ d :: rest, ∃ b ∈ d :: rest, a.columns ≠ b.columns) ↔
        ¬ (∀ df ∈ rest, df.columns = d.columns) := by
      constructor
      · rintro ⟨a, ha, b, hb, hab⟩ hall
        have hda : a.columns = d.columns := by
          rcases List.mem_cons.mp ha with rfl | ha0
          · rfl
          · exact hall a ha0
        have hdb : b.columns = d.columns := by
          rcases List.mem_cons.mp hb with rfl | hb0
          · rfl
          · exact hall b hb0
        exact hab (hda.trans hdb.symm)
      · intro hnot
        have hex : ∃ df ∈ rest, df.columns ≠ d.columns := by
          push_neg at hnot
          exact hnot
        obtain ⟨df, hdf, hne⟩ := hex
        exact ⟨d, List.mem_cons_self _ _, df, List.mem_cons_of_mem _ hdf,
          fun h => hne h.symm⟩
    cases hfm : findSchemaMismatch d.columns rest 1 with
    | none =>
      have hcols : ∀ df ∈ rest, df.columns = d.columns := findSchemaMismatch_eq_none.mp hfm
      have hok := mergeIdentical_ok d rest names c h2 (by
        intro df hdf
        rcases List.mem_cons.mp hdf with rfl | hdf0
        · rfl
        · exact hcols df hdf0)
      refine ⟨?_, ?_⟩
      · rw [hok]
        constructor
        · intro hfalse
          exact absurd hfalse (by simp [isSchemaMismatchError])
        · intro hex
          exact absurd hcols (hiff.mp hex)
      · intro i missing extra herr
        rw [hok] at herr
        exact absurd herr (by simp)
    | some p =>
      obtain ⟨j, df⟩ := p
      have herr : merge_identical_dataframes (d :: rest) names c =
          .error (.schemaMismatch j
            (d.columns.filter (fun c => !(df.columns.contains c)))
            (df.columns.filter (fun c => !(d.columns.contains c)))) := by
        simp only [merge_identical_dataframes]
        rw [if_neg (not_ne_iff.mpr h2), hfm]
      obtain ⟨hj1, hk, hdf, hne⟩ := findSchemaMismatch_eq_some hfm
      refine ⟨?_, ?_⟩
      · rw [herr]
        constructor
        · intro _
          refine hiff.mpr (fun hall => hne ?_)
          rw [hdf]
          exact hall _ (rest.get_mem _ _)
        · intro _
          rfl
      · intro i missing extra heq
        rw [herr] at heq
        injection heq with heq1
        injection heq1 with hji hmi hex
        subst hji
        obtain ⟨k, rfl⟩ : ∃ k, j = k + 1 := ⟨j - 1, by omega⟩
        refine ⟨by simpa using Nat.succ_lt_succ hk, ?_, ?_⟩
        · rw [← hmi, filter_not_contains_toFinset, hdf]
          rfl
        · rw [← hex, filter_not_contains_toFinset, hdf]
          rfl

theorem schema_mismatch_iff_witness :
    isSchemaMismatchError (merge_identical_dataframes [exOnlyA, exOnlyB] ["f", "g"]
      sourceColumnDefault) = true :=
  (schema_mismatch_iff [exOnlyA, exOnlyB] ["f", "g"] sourceColumnDefault
    (by decide) (by decide)).1.mpr
    ⟨exOnlyA, by decide, exOnlyB, by decide, by decide⟩

theorem sum_zip_label : ∀ (l1 : List DataFrame) (l2 : List String),
    l1.length = l2.length → l2.Nodup →
    ∀ (i : Nat) (hi1 : i < l1.length) (hi2 : i < l2.length),
    ((l1.zip l2).map (fun p => if l2.get ⟨i, hi2⟩ = p.2 then p.1.rows.length else 0)).sum
      = (l1.get ⟨i, hi1⟩).rows.length := by
  intro l1
  induction l1 with
  | nil =>
    intro l2 _ _ i hi1 hi2
    exact absurd hi1 (by simp)
  | cons d ds ih =>
    intro l2 hlen hnd i hi1 hi2
    cases l2 with
    | nil => simp at hlen
    | cons n ns =>
      rw [List.zip_cons_cons, List.map_cons, List.sum_cons]
      cases i with
      | zero =>
        rw [if_pos (show (n :: ns).get ⟨0, hi2⟩ = (d, n).2 from rfl)]
        have hz : ((ds.zip ns).map
            (fun p => if (n :: ns).get ⟨0, hi2⟩ = p.2 then p.1.rows.length else 0)).sum = 0 := by
          refine List.sum_eq_zero (fun x hx => ?_)
          rw [List.mem_map] at hx
          obtain ⟨p, hp, rfl⟩ := hx
          have hmem : p.2 ∈ ns := (List.of_mem_zip hp).2
          refine if_neg (fun h : (n :: ns).get ⟨0, hi2⟩ = p.2 => ?_)
          exact (List.nodup_cons.mp hnd).1 (show ((n :: ns).get ⟨0, hi2⟩) ∈ ns from h ▸ hmem)
        rw [hz]
        rfl
      | succ k =>
        have hnotmem : n ∉ ns := (List.nodup_cons.mp hnd).1
        have hhead : ¬ ((n :: ns).get ⟨k + 1, hi2⟩ = n) := by
          intro h
          have hg : ns.get ⟨k, by simpa using hi2⟩ ∈ ns := ns.get_mem _ _
          exact hnotmem (h ▸ hg)
        rw [if_neg hhead]
        have hih := ih ns (by simpa using hlen) (List.nodup_cons.mp hnd).2 k
          (by simpa using hi1) (by simpa using hi2)
        simpa using hih

/-- C2 (amended): the per-source counts reported after a merge are a recount
obtained by grouping the merged table on the provenance column; for rectangular
inputs they equal each source's true row contribution exactly when the
attached labels are pairwise distinct. -/
theorem merge_breakdown_distinct_labels (dfs : List DataFrame) (names : List String)
    (c : String) (h1 : dfs ≠ []) (h2 : dfs.length = names.length)
    (h3 : ∀ df ∈ dfs, df.columns = (dfs.head h1).columns)
    (h4 : ∀ df ∈ dfs, df.WF) (h5 : names.Nodup) :
    ∃ m, merge_identical_dataframes dfs names c = .ok m ∧
      ∀ i (hi1 : i < dfs.length) (hi2 : i < names.length),
        reportedCount m c (some (names.get ⟨i, hi2⟩)) = (dfs.get ⟨i, hi1⟩).rows.length := by
  match dfs with
  | [] => exact absurd rfl h1
  | d :: rest =>
    refine ⟨_, mergeIdentical_ok d rest names c h2 (by simpa using h3), ?_⟩
    intro i hi1 hi2
    unfold reportedCount
    rw [getColumn_tagged d rest names c (by simpa using h3) h4, List.count_flatMap]
    simp only [Function.comp_def]
    have hblocks : (((d :: rest).zip names).map
        (fun p => (List.replicate p.1.rows.length (some p.2)).count
          (some (names.get ⟨i, hi2⟩)))) =
        (((d :: rest).zip names).map
          (fun p => if names.get ⟨i, hi2⟩ = p.2 then p.1.rows.length else 0)) := by
      refine List.map_congr_left (fun p hp => ?_)
      rw [List.count_replicate]
      by_cases h : names.get ⟨i, hi2⟩ = p.2
      · refine Eq.trans (if_pos ?_) (if_pos h).symm
        simp only [beq_iff_eq, Option.some.injEq]
        exact h.symm
      · rw [if_neg ?_, if_neg h]
        simp only [beq_iff_eq, Option.some.injEq]
        exact fun hh => h hh.symm
    rw [hblocks, sum_zip_label (d :: rest) names h2 h5 i hi1 hi2]

theorem merge_breakdown_distinct_labels_witness :
    ∃ m, merge_identical_dataframes [exP, exQ] ["p", "q"] sourceColumnDefault = .ok m ∧
      reportedCount m sourceColumnDefault (some "p") = 1 ∧
      reportedCount m sourceColumnDefault (some "q") = 2 := by
  obtain ⟨m, hm, hall⟩ := merge_breakdown_distinct_labels [exP, exQ] ["p", "q"]
    sourceColumnDefault (by decide) (by decide) (by decide) (by decide) (by decide)
  exact ⟨m, hm, hall 0 (by decide) (by decide), hall 1 (by decide) (by decide)⟩

/-- C2 (counterexample): two single-sheet files with the same name stem get
the same provenance label; the reported breakdown — a recount of the merged
table — then folds both sources into one entry, so it does not equal the true
per-source contribution (source one contributed 1 row, yet 3 is reported for
its label). -/
theorem merge_breakdown_counterexample :
    merge_identical_dataframes [exP, exQ] ["a", "a"] sourceColumnDefault =
      .ok ⟨["x", "来源"],
        [[some "1", some "a"], [some "2", some "a"], [some "3", some "a"]]⟩ ∧
    sourceBreakdown
      ⟨["x", "来源"],
       [[some "1", some "a"], [some "2", some "a"], [some "3", some "a"]]⟩
      sourceColumnDefault = [(some "a", 3)] ∧
    exP.rows.length = 1 ∧
    reportedCount
      ⟨["x", "来源"],
       [[some "1", some "a"], [some "2", some "a"], [some "3", some "a"]]⟩
      sourceColumnDefault (some "a") ≠ exP.rows.length := by
  refine ⟨rfl, by decide, by decide, by decide⟩

theorem mem_foldl_inter (x : String) (g : DataFrame → Finset String) :
    ∀ (l : List DataFrame) (s : Finset String),
      (x ∈ l.foldl (fun acc df => acc ∩ g df) s ↔ x ∈ s ∧ ∀ df ∈ l, x ∈ g df) := by
  intro l
  induction l with
  | nil =>
    intro s
    simp
  | cons t ts ih =>
    intro s
    rw [List.foldl_cons, ih]
    simp only [Finset.mem_inter, List.mem_cons]
    constructor
    · rintro ⟨⟨hs, ht⟩, hall⟩
      refine ⟨hs, fun df hdf => ?_⟩
      rcases hdf with rfl | hdf
      · exact ht
      · exact hall df hdf
    · rintro ⟨hs, hall⟩
      exact ⟨⟨hs, hall t (Or.inl rfl)⟩, fun df hdf => hall df (Or.inr hdf)⟩

theorem isSetEnum_enumAB : IsSetEnum enumAB := by
  intro s
  unfold enumAB
  by_cases h : s = ({"a", "b"} : Finset String)
  · rw [if_pos h, h]
    exact ⟨by decide, by decide⟩
  · rw [if_neg h]
    exact ⟨Finset.sort_toFinset _ _, Finset.sort_nodup _ _⟩

theorem isSetEnum_enumBA : IsSetEnum enumBA := by
  intro s
  unfold enumBA
  by_cases h : s = ({"a", "b"} : Finset String)
  · rw [if_pos h, h]
    exact ⟨by decide, by decide⟩
  · rw [if_neg h]
    exact ⟨Finset.sort_toFinset _ _, Finset.sort_nodup _ _⟩

/-- C3 (amended): for every admissible set-iteration order, intersection-mode
reconciliation returns a duplicate-free enumeration of the intersection of the
tables' raw column-name sets — a name is kept exactly when every table has it;
the ORDER of that enumeration is the Python set's iteration order, which is
neither the first-occurrence order nor reproducible across differently seeded
runs. -/
theorem intersection_columns_set (enum : Finset String → List String)
    (henum : IsSetEnum enum) (d : DataFrame) (rest : List DataFrame) :
    ((get_common_columns enum (d :: rest)).toFinset =
      rest.foldl (fun acc df => acc ∩ df.columns.toFinset) d.columns.toFinset) ∧
    (get_common_columns enum (d :: rest)).Nodup ∧
    (∀ x, x ∈ get_common_columns enum (d :: rest) ↔
      x ∈ d.columns ∧ ∀ df ∈ rest, x ∈ df.columns) := by
  have h := henum (rest.foldl (fun acc df => acc ∩ df.columns.toFinset) d.columns.toFinset)
  refine ⟨h.1, h.2, fun x => ?_⟩
  rw [show get_common_columns enum (d :: rest) =
    enum (rest.foldl (fun acc df => acc ∩ df.columns.toFinset) d.columns.toFinset) from rfl]
  rw [← List.mem_toFinset, h.1,
    mem_foldl_inter x (fun df => df.columns.toFinset) rest d.columns.toFinset]
  simp

theorem intersection_columns_set_witness :
    ((get_common_columns enumAB (exBA :: [exBA])).toFinset =
      [exBA].foldl (fun acc df => acc ∩ df.columns.toFinset) exBA.columns.toFinset) ∧
    (get_common_columns enumAB (exBA :: [exBA])).Nodup ∧
    (∀ x, x ∈ get_common_columns enumAB (exBA :: [exBA]) ↔
      x ∈ exBA.columns ∧ ∀ df ∈ [exBA], x ∈ df.columns) :=
  intersection_columns_set enumAB isSetEnum_enumAB exBA [exBA]

theorem firstOccurrenceDedup_keeps_first :
    firstOccurrenceDedup ["x", "y", "y", "x"] = ["x", "y"] := by decide

/-- C3 (counterexample): two admissible set-iteration orders — both faithful
enumerations of the same intersection set — make the code return different
column orders on the same ordered input, and one of them differs from the
spec's first-occurrence order, so neither the first-occurrence-order claim nor
cross-run reproducibility holds. -/
theorem intersection_order_counterexample :
    IsSetEnum enumAB ∧ IsSetEnum enumBA ∧
    specIntersectionOrder [exBA, exBA] = ["b", "a"] ∧
    get_common_columns enumAB [exBA, exBA] = ["a", "b"] ∧
    get_common_columns enumBA [exBA, exBA] = ["b", "a"] ∧
    get_common_columns enumAB [exBA, exBA] ≠ specIntersectionOrder [exBA, exBA] ∧
    get_common_columns enumAB [exBA, exBA] ≠ get_common_columns enumBA [exBA, exBA] :=
  ⟨isSetEnum_enumAB, isSetEnum_enumBA, by decide, by decide, by decide, by decide, by decide⟩

theorem mapM_const_ok {α : Type} (f : α → Except String DataFrame) (e : DataFrame) :
    ∀ l : List α, (∀ x ∈ l, f x = .ok e) → l.mapM f = .ok (l.map (fun _ => e)) := by
  intro l
  induction l with
  | nil => intro _; rfl
  | cons a as ih =>
    intro h
    rw [List.mapM_cons, h a (List.mem_cons_self _ _),
      ih (fun x hx => h x (List.mem_cons_of_mem _ hx))]
    rfl

theorem concatDf_empties (l : List DataFrame) :
    concatDf ((⟨[], []⟩ : DataFrame) :: l.map (fun _ => (⟨[], []⟩ : DataFrame))) =
      .ok ⟨[], []⟩ := by
  simp only [concatDf]
  rw [if_pos ?hall]
  case hall =>
    rw [List.all_eq_true]
    intro x hx
    rw [List.mem_map] at hx
    obtain ⟨y, hy, rfl⟩ := hx
    rfl
  refine congrArg Except.ok ?_
  rw [DataFrame.mk.injEq]
  refine ⟨rfl, ?_⟩
  show ((⟨[], []⟩ : DataFrame) :: l.map (fun _ => (⟨[], []⟩ : DataFrame))).flatMap
    (fun x => x.rows) = []
  rw [List.flatMap_cons, List.flatMap_map]
  simp

theorem mergeDataframes_no_common (enum : Finset String → List String)
    (henum : IsSetEnum enum) (d0 d1 : DataFrame) (rest : List DataFrame)
    (hnodup : ∀ df ∈ d0 :: d1 :: rest, (df.columns.map normalizeName).Nodup)
    (hraw : (d1 :: rest).foldl (fun acc df => acc ∩ df.columns.toFinset)
      d0.columns.toFinset = ∅) :
    merge_dataframes enum (d0 :: d1 :: rest) = .ok ⟨[], []⟩ := by
  have hcommon : get_common_columns enum (d0 :: d1 :: rest) = [] := by
    show enum ((d1 :: rest).foldl (fun acc df => acc ∩ df.columns.toFinset)
      d0.columns.toFinset) = []
    rw [hraw, ← List.toFinset_eq_empty_iff]
    exact (henum ∅).1
  have hf : ∀ df ∈ d0 :: d1 :: rest,
      ((do
        let s ← standardize_columns df
        selectColumns s (get_common_columns enum (d0 :: d1 :: rest))) :
        Except String DataFrame) = .ok ⟨[], []⟩ := by
    intro df hdf
    rw [hcommon]
    have hs : standardize_columns df = .ok ⟨df.columns.map normalizeName, df.rows⟩ := by
      unfold standardize_columns
      rw [if_pos (hnodup df hdf)]
    rw [hs]
    rfl
  show (do
      let std ← (d0 :: d1 :: rest).mapM (fun df => do
        let s ← standardize_columns df
        selectColumns s (get_common_columns enum (d0 :: d1 :: rest)))
      concatDf std) = .ok ⟨[], []⟩
  rw [mapM_const_ok _ _ _ hf]
  show concatDf ((d0 :: d1 :: rest).map (fun _ => ⟨[], []⟩)) = .ok ⟨[], []⟩
  rw [List.map_cons]
  exact concatDf_empties (d1 :: rest)

/-- C6 (amended): for two or more tables whose normalized column-name sets
have an empty intersection (and whose normalized names are collision-free),
intersection-mode merge does NOT fail with a no-common-columns error — no such
error exists in the code; it returns the empty zero-column table. -/
theorem intersection_merge_empty_common (enum : Finset String → List String)
    (henum : IsSetEnum enum) (d0 d1 : DataFrame) (rest : List DataFrame)
    (hnodup : ∀ df ∈ d0 :: d1 :: rest, (df.columns.map normalizeName).Nodup)
    (hempty : (d1 :: rest).foldl
      (fun acc df => acc ∩ (df.columns.map normalizeName).toFinset)
      (d0.columns.map normalizeName).toFinset = ∅) :
    merge_dataframes enum (d0 :: d1 :: rest) = .ok ⟨[], []⟩ := by
  refine mergeDataframes_no_common enum henum d0 d1 rest hnodup ?_
  rw [Finset.eq_empty_iff_forall_not_mem]
  intro x hx
  rw [mem_foldl_inter x (fun df => df.columns.toFinset) (d1 :: rest)
    d0.columns.toFinset] at hx
  obtain ⟨hx0, hxall⟩ := hx
  have hnorm : normalizeName x ∈ (d1 :: rest).foldl
      (fun acc df => acc ∩ (df.columns.map normalizeName).toFinset)
      (d0.columns.map normalizeName).toFinset := by
    rw [mem_foldl_inter (normalizeName x) (fun df => (df.columns.map normalizeName).toFinset)
      (d1 :: rest) (d0.columns.map normalizeName).toFinset]
    constructor
    · rw [List.mem_toFinset]
      exact List.mem_map_of_mem normalizeName (by simpa using hx0)
    · intro df hdf
      rw [List.mem_toFinset]
      exact List.mem_map_of_mem normalizeName (by simpa using hxall df hdf)
  rw [hempty] at hnorm
  exact absurd hnorm (Finset.not_mem_empty _)

theorem intersection_merge_empty_common_witness :
    merge_dataframes enumAB (exOnlyA :: exOnlyB :: []) = .ok ⟨[], []⟩ :=
  intersection_merge_empty_common enumAB isSetEnum_enumAB exOnlyA exOnlyB []
    (by decide) (by decide)

/-- C6 (counterexample): two tables with disjoint (already normalized) column
names — the claim demands a no-common-columns failure, but intersection-mode
merge returns a table: the empty zero-column frame. -/
theorem no_common_columns_counterexample :
    IsSetEnum enumBA ∧
    merge_dataframes enumBA [exOnlyA, exOnlyB] = .ok ⟨[], []⟩ ∧
    ∀ e, merge_dataframes enumBA [exOnlyA, exOnlyB] ≠ .error e := by
  refine ⟨isSetEnum_enumBA, ?_, ?_⟩
  · exact mergeDataframes_no_common enumBA isSetEnum_enumBA exOnlyA exOnlyB []
      (by decide) (by decide)
  · intro e he
    rw [mergeDataframes_no_common enumBA isSetEnum_enumBA exOnlyA exOnlyB []
      (by decide) (by decide)] at he
    exact Except.noConfusion he

theorem digitVal_digitChar (d : Nat) (h : d < 10) : digitVal (Nat.digitChar d) = d := by
  interval_cases d <;> rfl

theorem decodeNat_cons (a : Nat) (ch : Char) (l : List Char) :
    decodeNat a (ch :: l) = decodeNat (10 * a + digitVal ch) l := rfl

theorem decodeNat_toDigitsCore :
    ∀ (f n a : Nat) (l : List Char), 0 < f → n < 10 ^ f →
      decodeNat a (Nat.toDigitsCore 10 f n l) =
        decodeNat (a * 10 ^ (Nat.log 10 n + 1) + n) l := by
  intro f
  induction f with
  | zero =>
    intro n a l h0
    exact absurd h0 (lt_irrefl 0)
  | succ f ih =>
    intro n a l _ hn
    simp only [Nat.toDigitsCore]
    by_cases hdiv : n / 10 = 0
    · rw [if_pos hdiv]
      have hlt : n < 10 := by omega
      have hlog : Nat.log 10 n = 0 := Nat.log_eq_zero_iff.mpr (Or.inl hlt)
      rw [decodeNat_cons, Nat.mod_eq_of_lt hlt, digitVal_digitChar n hlt, hlog]
      congr 1
      ring
    · rw [if_neg hdiv]
      have hfpos : 0 < f := by
        rcases Nat.eq_zero_or_pos f with rfl | hf
        · have hlt : n < 10 := by simpa using hn
          exact absurd (Nat.div_eq_of_lt hlt) hdiv
        · exact hf
      have hlt : n / 10 < 10 ^ f := by
        have hx : n < 10 ^ f * 10 := by
          rw [← pow_succ]
          exact hn
        exact (Nat.div_lt_iff_lt_mul (by norm_num)).mpr hx
      rw [ih (n / 10) a (Nat.digitChar (n % 10) :: l) hfpos hlt, decodeNat_cons,
        digitVal_digitChar (n % 10) (Nat.mod_lt n (by norm_num))]
      have h10 : 10 ≤ n := by omega
      have hlog : Nat.log 10 (n / 10) + 1 = Nat.log 10 n := by
        rw [Nat.log_div_base]
        have hpos : 0 < Nat.log 10 n := Nat.log_pos (by norm_num) h10
        omega
      congr 1
      rw [← hlog]
      calc 10 * (a * 10 ^ (Nat.log 10 (n / 10) + 1) + n / 10) + n % 10
          = a * (10 ^ (Nat.log 10 (n / 10) + 1) * 10) + (10 * (n / 10) + n % 10) := by
            ring
        _ = a * 10 ^ (Nat.log 10 (n / 10) + 1 + 1) + n := by
            rw [← pow_succ, Nat.div_add_mod]

theorem decodeNat_repr (n : Nat) : decodeNat 0 (Nat.toDigits 10 n) = n := by
  unfold Nat.toDigits
  have h1 : n < 10 ^ (n + 1) := by
    calc n < 2 ^ n := Nat.lt_two_pow n
      _ ≤ 10 ^ n := Nat.pow_le_pow_left (by norm_num) n
      _ ≤ 10 ^ (n + 1) := Nat.pow_le_pow_right (by norm_num) (Nat.le_succ n)
  rw [decodeNat_toDigitsCore (n + 1) n 0 [] (Nat.succ_pos n) h1]
  show 0 * 10 ^ (Nat.log 10 n + 1) + n = n
  ring

theorem natRepr_injective : Function.Injective Nat.repr := by
  intro a b h
  have hd : Nat.toDigits 10 a = Nat.toDigits 10 b := by
    have hh := congrArg String.data h
    simpa [Nat.repr, List.asString] using hh
  have hdec := congrArg (decodeNat 0) hd
  rwa [decodeNat_repr, decodeNat_repr] at hdec

/-- C5 (amended): the provenance labels a single file contributes are pairwise
distinct — with more than one sheet, each label carries the sheet ordinal as a
suffix; but labels of DIFFERENT files can coincide (equal name stems), so the
labels of a whole merge need not be pairwise distinct. -/
theorem sheet_labels_nodup (f : UploadedFileData) : (sheetLabels f).Nodup := by
  unfold sheetLabels
  by_cases h : f.sheets.length > 1
  · rw [if_pos h]
    refine List.Nodup.map ?_ (List.nodup_range _)
    intro i j hij
    have hdata := congrArg String.data hij
    simp only [String.data_append] at hdata
    have h2 : (Nat.repr (i + 1)).data = (Nat.repr (j + 1)).data := by
      simpa using hdata
    have h3 : Nat.repr (i + 1) = Nat.repr (j + 1) := String.ext h2
    have h4 := natRepr_injective h3
    omega
  · rw [if_neg h]
    cases hsheets : f.sheets with
    | nil => simp
    | cons s ss =>
      cases ss with
      | nil => simp
      | cons t ts =>
        rw [hsheets] at h
        exact absurd (by simp) h

/-- C5 (counterexample): a CSV named `a.csv` and a spreadsheet named `a.xlsx`
have the same name stem, so the merge attaches the identical label `a` to both
sources — the labels of a merge are not pairwise distinct. -/
theorem provenance_labels_counterexample :
    (gatherSources [exFileCsv, exFileXlsx]).2 = ["a", "a"] ∧
    ¬ (gatherSources [exFileCsv, exFileXlsx]).2.Nodup :=
  ⟨by decide, by decide⟩
